import Mathlib

/-!
Shallow embedding of the obsidian-git-auto-commit plugin (TypeScript) in Lean 4,
with theorems checking its natural-language specification.

Source files embedded: `src/git.ts` (query/mutation layer), `src/main.ts`
(commit orchestrator), the status-badge reconciliation engine
(`GitStatusBadgeManager`), and `src/template.ts` (`renderTemplate`).

JavaScript strings are modelled through their character lists (`String.data`);
all git output in scope is ASCII so JS UTF-16 code-unit indexing coincides with
character indexing.  JS `Map`/`Set` are modelled as insertion-ordered
association lists / lists with set-flavoured update operations.
-/

namespace AutoGit

/-! ## JavaScript string primitives -/

/-- JS `s.slice(0, n)` (code units = characters here). -/
def strTake (s : String) (n : Nat) : String := ⟨s.data.take n⟩

/-- JS `s.slice(n)`. -/
def strDrop (s : String) (n : Nat) : String := ⟨s.data.drop n⟩

/-- JS `s.startsWith(p)`. -/
def strStartsWith (s p : String) : Bool := p.data.isPrefixOf s.data

/-- Auxiliary scanner for substring containment on character lists. -/
def hasSubAux (sub : List Char) : List Char → Bool
  | [] => sub.isEmpty
  | c :: rest => sub.isPrefixOf (c :: rest) || hasSubAux sub rest

/-- JS `s.includes(sub)`. -/
def hasSub (s sub : String) : Bool := hasSubAux sub.data s.data

/-- The JS whitespace class (`\s`, and the ends trimmed by `String.trim`),
by code point. -/
def jsWhitespace (c : Char) : Bool :=
  c.toNat = 32 || c.toNat = 9 || c.toNat = 10 || c.toNat = 13 || c.toNat = 11 ||
  c.toNat = 12 || c.toNat = 0xa0 || c.toNat = 0x1680 ||
  (0x2000 ≤ c.toNat && c.toNat ≤ 0x200a) || c.toNat = 0x2028 || c.toNat = 0x2029 ||
  c.toNat = 0x202f || c.toNat = 0x205f || c.toNat = 0x3000 || c.toNat = 0xfeff

/-- JS `s.trim()`. -/
def strTrim (s : String) : String :=
  ⟨((s.data.dropWhile jsWhitespace).reverse.dropWhile jsWhitespace).reverse⟩

/-- Splitting a character list at every occurrence of one character,
mirroring JS `s.split(sep)` for a one-character separator. -/
def splitChar (sep : Char) : List Char → List (List Char)
  | [] => [[]]
  | c :: rest =>
    let r := splitChar sep rest
    if c = sep then [] :: r
    else
      match r with
      | [] => [[c]]
      | h :: t => (c :: h) :: t

/-- JS `s.split("\0")`. -/
def splitNul (s : String) : List String :=
  (splitChar (Char.ofNat 0) s.data).map (fun l => ⟨l⟩)

/-- JS `s.split(/[/\\]/)` — path segmentation on both separators. -/
def splitPath (s : String) : List String :=
  (splitSeps s.data).map (fun l => ⟨l⟩)
where
  splitSeps : List Char → List (List Char)
    | [] => [[]]
    | c :: rest =>
      let r := splitSeps rest
      if c = '/' || c = '\\' then [] :: r
      else
        match r with
        | [] => [[c]]
        | h :: t => (c :: h) :: t

/-- JS `parts.join("/")`. -/
def joinSlash : List String → String
  | [] => ""
  | [s] => s
  | s :: rest => s ++ "/" ++ joinSlash rest

/-- JS `parts.join(sep)` for a general separator. -/
def joinSep (sep : String) : List String → String
  | [] => ""
  | [s] => s
  | s :: rest => s ++ sep ++ joinSep sep rest

/-- First-occurrence de-duplication with an accumulator of already-seen
elements: the order-preserving semantics of JS `[...new Set(files)]`. -/
def jsDedupAux (seen : List String) : List String → List String
  | [] => []
  | x :: xs => if x ∈ seen then jsDedupAux seen xs else x :: jsDedupAux (x :: seen) xs

/-- JS `[...new Set(files)]`. -/
def jsDedup (l : List String) : List String := jsDedupAux [] l

/-! ## `git.ts`: `getChangedFiles` (canonical/latest version)

```ts
const stdout = await runGit({ cwd, gitPath, args: ["status", "--porcelain=v1", "-z"] });
if (!stdout) return [];
const parts = stdout.split("\0").filter(Boolean);
const files: string[] = [];
for (let i = 0; i < parts.length; i++) {
  const entry = parts[i];
  const statusCode = entry.slice(0, 2);
  const filePath = entry.slice(3);
  if (statusCode.startsWith("R") || statusCode.startsWith("C")) {
    const newPath = parts[++i];
    if (newPath) files.push(newPath);
    continue;
  }
  if (filePath) files.push(filePath);
}
return [...new Set(files)];
```
-/

/-- Does a status code mark a rename/copy record (leading `R` or `C`)?
(`statusCode.startsWith("R") || statusCode.startsWith("C")`.) -/
def isRenameCode (code : String) : Bool :=
  strStartsWith code "R" || strStartsWith code "C"

/-- The indexed loop of `getChangedFiles` over the NUL-separated parts.
For a rename/copy entry the loop consumes the following part as the new
name (`parts[++i]`); at the end of the array that extra part is JS
`undefined`, which is falsy and not pushed. -/
def collectChanged : List String → List String
  | [] => []
  | [entry] =>
    if isRenameCode (strTake entry 2) then []
    else if strDrop entry 3 ≠ "" then [strDrop entry 3] else []
  | entry :: next :: rest =>
    if isRenameCode (strTake entry 2) then
      (if next ≠ "" then [next] else []) ++ collectChanged rest
    else
      (if strDrop entry 3 ≠ "" then [strDrop entry 3] else []) ++ collectChanged (next :: rest)

/-- `stdout.split("\0").filter(Boolean)`. -/
def statusParts (stdout : String) : List String :=
  (splitNul stdout).filter (fun p => p ≠ "")

/-- `getChangedFiles`, as a function of the status-query output text. -/
def getChangedFiles (stdout : String) : List String :=
  if stdout = "" then []
  else jsDedup (collectChanged (statusParts stdout))

/-! ## Structured view of the porcelain wire format

Per the specified subprocess contract, a NUL-delimited status record is a
two-character status code, a space, then a path; rename/copy records are
followed by one extra NUL-delimited path holding the new name. -/

/-- One porcelain v1 `-z` record of the status query. -/
inductive ZRecord
  | plain (code path : String)
  | renameCopy (code oldPath newPath : String)
deriving DecidableEq

/-- The NUL-separated parts a record contributes to the query output. -/
def ZRecord.toParts : ZRecord → List String
  | .plain code path => [code ++ " " ++ path]
  | .renameCopy code oldPath newPath => [code ++ " " ++ oldPath, newPath]

/-- The path a record is about: a plain record's path, a rename/copy
record's new name. -/
def ZRecord.emitted : ZRecord → String
  | .plain _ path => path
  | .renameCopy _ _ newPath => newPath

/-- Well-formedness of a record: two-character status code classified
consistently with the record's shape, and a nonempty carried path. -/
def ZRecord.wf : ZRecord → Bool
  | .plain code path => code.length = 2 && !isRenameCode code && path ≠ ""
  | .renameCopy code _ newPath => code.length = 2 && isRenameCode code && newPath ≠ ""

/-! ## `template.ts`: `renderTemplate`

```ts
export function renderTemplate(template: string, vars: Record<string, string>): string {
  return template.replace(/\{\{\s*([a-zA-Z0-9_]+)\s*\}\}/g, (_, key) => vars[key] ?? "");
}
```
-/

/-- The regex word class `[a-zA-Z0-9_]`, by code point. -/
def jsWordChar (c : Char) : Bool :=
  (97 ≤ c.toNat && c.toNat ≤ 122) || (65 ≤ c.toNat && c.toNat ≤ 90) ||
  (48 ≤ c.toNat && c.toNat ≤ 57) || c.toNat = 95

/-- The word-class key of a potential match: the maximal `[a-zA-Z0-9_]+`
run after the whitespace following `{{`. -/
def varKey (cs : List Char) : List Char :=
  (cs.dropWhile jsWhitespace).takeWhile jsWordChar

/-- What remains after the whitespace, the key and the trailing
whitespace of a potential match. -/
def varTail (cs : List Char) : List Char :=
  (((cs.dropWhile jsWhitespace).dropWhile jsWordChar).dropWhile jsWhitespace)

/-- Greedy match of `\s*([a-zA-Z0-9_]+)\s*\}\}` against the characters
following a `{{`; returns the captured key and the remainder.  The three
character classes involved are pairwise disjoint and none contains `}`,
so greedy matching needs no backtracking. -/
def matchVar (cs : List Char) : Option (List Char × List Char) :=
  if varKey cs ≠ [] && (varTail cs).take 2 = ['}', '}'] then
    some (varKey cs, (varTail cs).drop 2)
  else none

/-- JS object lookup `vars[key] ?? ""`, with the record modelled as an
association list. -/
def lookupVar (vars : List (String × String)) (key : String) : String :=
  match vars.find? (fun p => p.1 == key) with
  | some p => p.2
  | none => ""

/-- A match attempt at one scan position `c :: rest`: succeeds only when
`c :: rest` starts with `{{` and the rest completes a match. -/
def tryVarAt (c : Char) (rest : List Char) : Option (List Char × List Char) :=
  if c = '{' then
    match rest with
    | '{' :: rest2 => matchVar rest2
    | _ => none
  else none

/-- Leftmost regex match in the template: the verbatim text before the
match, the captured key, and the remainder after the match.  A failed
attempt advances the scan position by one character, as the regex engine
does. -/
def findVar : List Char → Option (List Char × List Char × List Char)
  | [] => none
  | c :: rest =>
    match tryVarAt c rest with
    | some (key, rem) => some ([], key, rem)
    | none =>
      match findVar rest with
      | none => none
      | some (pre, key, rem) => some (c :: pre, key, rem)

/-- Global replacement loop.  The fuel argument only forces structural
recursion: each successful match consumes at least four characters, so a
fuel of the template length never runs out. -/
def renderAux (vars : List (String × String)) : Nat → List Char → List Char
  | 0, cs => cs
  | fuel + 1, cs =>
    match findVar cs with
    | none => cs
    | some (pre, key, rem) =>
      pre ++ (lookupVar vars ⟨key⟩).data ++ renderAux vars fuel rem

/-- `renderTemplate` (the `vars` record as an association list). -/
def renderTemplate (template : String) (vars : List (String × String)) : String :=
  ⟨renderAux vars template.data.length template.data⟩

/-! ## `git.ts`: statuses, repository state, pull

The effect of the external binary is a function from argument vectors to
either captured stdout or a rejection carrying the error message; every
operation also reports the trace of argument vectors it invoked. -/

/-- The external `git` binary as observed through `runGit`. -/
structure GitEnv where
  run : List String → Except String String

/-- `type FileStatus = "M" | "A" | "R" | "U" | ""` (`empty` is `""`). -/
inductive FileStatus
  | M | A | R | U | empty
deriving DecidableEq

/-- `RepoState` from `git.ts`. -/
inductive RepoState
  | notARepo | emptyRepo | localOnly | remoteNoUpstream | ready
deriving DecidableEq

/-- The string of each `RepoState` literal. -/
def RepoState.str : RepoState → String
  | .notARepo => "not-a-repo"
  | .emptyRepo => "empty-repo"
  | .localOnly => "local-only"
  | .remoteNoUpstream => "remote-no-upstream"
  | .ready => "ready"

def gitDirArgs : List String := ["rev-parse", "--git-dir"]
def revParseHeadArgs : List String := ["rev-parse", "HEAD"]
def remoteGetUrlArgs : List String := ["remote", "get-url", "origin"]
def upstreamArgs : List String := ["rev-parse", "--abbrev-ref", "@{u}"]
def currentBranchArgs : List String := ["rev-parse", "--abbrev-ref", "HEAD"]
def pullArgs : List String := ["pull"]
def pullOriginArgs (branch : String) : List String := ["pull", "origin", branch]
def statusArgs : List String := ["status", "--porcelain=v1", "-z"]
def addAllArgs : List String := ["add", "-A"]
def commitArgs (message : String) : List String := ["commit", "-m", message]
def pushUpstreamArgs (branch : String) : List String := ["push", "-u", "origin", branch]

/-- `isGitRepo`: true iff `rev-parse --git-dir` succeeds.  Returns the
result together with the invoked commands. -/
def isGitRepo (env : GitEnv) : Bool × List (List String) :=
  match env.run gitDirArgs with
  | .ok _ => (true, [gitDirArgs])
  | .error _ => (false, [gitDirArgs])

/-- `getRemoteUrl`: the trimmed remote URL, or `""` on failure. -/
def getRemoteUrl (env : GitEnv) : String × List (List String) :=
  match env.run remoteGetUrlArgs with
  | .ok s => (strTrim s, [remoteGetUrlArgs])
  | .error _ => ("", [remoteGetUrlArgs])

/-- `getCurrentBranch`: trimmed `rev-parse --abbrev-ref HEAD`, failure
propagates. -/
def getCurrentBranch (env : GitEnv) : Except String String × List (List String) :=
  match env.run currentBranchArgs with
  | .ok s => (.ok (strTrim s), [currentBranchArgs])
  | .error e => (.error e, [currentBranchArgs])

/-- `detectRepoState`: the readiness classifier, probes in order. -/
def detectRepoState (env : GitEnv) : RepoState × List (List String) :=
  if !(isGitRepo env).1 then (.notARepo, (isGitRepo env).2)
  else
    match env.run revParseHeadArgs with
    | .error _ => (.emptyRepo, (isGitRepo env).2 ++ [revParseHeadArgs])
    | .ok _ =>
      if (getRemoteUrl env).1 = "" then
        (.localOnly, (isGitRepo env).2 ++ [revParseHeadArgs] ++ (getRemoteUrl env).2)
      else
        match env.run upstreamArgs with
        | .ok _ =>
          (.ready,
           (isGitRepo env).2 ++ [revParseHeadArgs] ++ (getRemoteUrl env).2 ++ [upstreamArgs])
        | .error _ =>
          (.remoteNoUpstream,
           (isGitRepo env).2 ++ [revParseHeadArgs] ++ (getRemoteUrl env).2 ++ [upstreamArgs])

/-- `PullResult` (`notReady?` defaults to absent/false). -/
structure PullResult where
  success : Bool
  hasConflicts : Bool
  message : String
  notReady : Bool := false
deriving DecidableEq

/-- Does a failure message carry a merge-conflict marker? -/
def conflictMarker (msg : String) : Bool :=
  hasSub msg "CONFLICT" || hasSub msg "Merge conflict"

/-- `pull`: readiness gate, upstream-based attempt, one explicit
`origin <branch>` retry, conflict-marker interception in the outer catch. -/
def pull (env : GitEnv) : Except String PullResult × List (List String) :=
  let (state, t0) := detectRepoState env
  if state ≠ .ready then
    (.ok { success := false, hasConflicts := false
           message := "Repository not ready: " ++ state.str, notReady := true }, t0)
  else
    match env.run pullArgs with
    | .ok out => (.ok { success := true, hasConflicts := false, message := out }, t0 ++ [pullArgs])
    | .error _ =>
      match getCurrentBranch env with
      | (.error e, tb) =>
        (if conflictMarker e then .ok { success := false, hasConflicts := true, message := e }
         else .error e, t0 ++ [pullArgs] ++ tb)
      | (.ok branch, tb) =>
        match env.run (pullOriginArgs branch) with
        | .ok out =>
          (.ok { success := true, hasConflicts := false, message := out },
           t0 ++ [pullArgs] ++ tb ++ [pullOriginArgs branch])
        | .error e =>
          (if conflictMarker e then .ok { success := false, hasConflicts := true, message := e }
           else .error e, t0 ++ [pullArgs] ++ tb ++ [pullOriginArgs branch])

/-! ## Status-badge reconciliation engine (`GitStatusBadgeManager`)

JS `Map` is an insertion-ordered association list, JS `Set` an
insertion-ordered duplicate-free list. -/

/-- JS `map.get(k)`. -/
def mget (m : List (String × FileStatus)) (k : String) : Option FileStatus :=
  (m.find? (fun e => e.1 == k)).map (fun e => e.2)

/-- JS `map.set(k, v)`: update in place, else append. -/
def mset (m : List (String × FileStatus)) (k : String) (v : FileStatus) :
    List (String × FileStatus) :=
  match m with
  | [] => [(k, v)]
  | e :: rest => if e.1 == k then (k, v) :: rest else e :: mset rest k v

/-- JS `map.delete(k)` / `set.delete(k)` (keys are unique by construction). -/
def mdelete (m : List (String × FileStatus)) (k : String) : List (String × FileStatus) :=
  m.filter (fun e => e.1 ≠ k)

/-- JS `set.add(x)`. -/
def sadd (s : List String) (x : String) : List String :=
  if x ∈ s then s else s ++ [x]

/-- JS `set.delete(x)`. -/
def sdelete (s : List String) (x : String) : List String :=
  s.filter (fun y => y ≠ x)

/-- The owned state of `GitStatusBadgeManager` (rendering handles aside). -/
structure BadgeState where
  enabled : Bool
  fileStatuses : List (String × FileStatus)
  folderStatuses : List (String × FileStatus)
  trackedFiles : List String
  trackedLoaded : Bool
  conflicts : List String
deriving DecidableEq

/-- `priority` (part_002 version): U 4, A 3, M 2, R 1, "" 0. -/
def priority : FileStatus → Nat
  | .U => 4
  | .A => 3
  | .M => 2
  | .R => 1
  | .empty => 0

/-- Every proper path prefix of a file path: split on `/` or `\`, join the
first `i` segments with `/` for `1 ≤ i < segments`. -/
def folderPrefixes (path : String) : List String :=
  let parts := splitPath path
  (List.range' 1 (parts.length - 1)).map (fun i => joinSlash (parts.take i))

/-- JS falsiness of `folders.get(folder)`: `undefined` or `""`. -/
def folderFalsy : Option FileStatus → Bool
  | none => true
  | some s => s = .empty

/-- One step of the folder-aggregation inner loop:
`if (!cur || priority(status) > priority(cur)) folders.set(folder, status)`. -/
def updateFolder (folders : List (String × FileStatus)) (folder : String)
    (status : FileStatus) : List (String × FileStatus) :=
  if folderFalsy (mget folders folder)
      || priority ((mget folders folder).getD .empty) < priority status then
    mset folders folder status
  else folders

/-- The folder-aggregation pass over one merged entry. -/
def updateFoldersFor (folders : List (String × FileStatus)) (filePath : String)
    (status : FileStatus) : List (String × FileStatus) :=
  (folderPrefixes filePath).foldl (fun fo folder => updateFolder fo folder status) folders

/-- Folder statuses recomputed from scratch from a merged map. -/
def computeFolders (merged : List (String × FileStatus)) : List (String × FileStatus) :=
  merged.foldl (fun fo e => updateFoldersFor fo e.1 e.2) []

/-- `merged = new Map(fileStatuses); conflicts.forEach(p => merged.set(p, "U"))`. -/
def mergedStatuses (st : BadgeState) : List (String × FileStatus) :=
  st.conflicts.foldl (fun m p => mset m p .U) st.fileStatuses

/-- The display precedence a folder map records for a folder (0 when the
folder is absent, matching the `none` status). -/
def folderPrio (folders : List (String × FileStatus)) (f : String) : Nat :=
  match mget folders f with
  | none => 0
  | some s => priority s

/-- The maximum precedence among the merged entries that are descendants
of a folder (0 when there are none). -/
def descendantMax (merged : List (String × FileStatus)) (f : String) : Nat :=
  (merged.map (fun e => if f ∈ folderPrefixes e.1 then priority e.2 else 0)).foldr max 0

/-- `rebuildFolderStatuses()`. -/
def rebuildFolderStatuses (st : BadgeState) : BadgeState :=
  { st with folderStatuses := computeFolders (mergedStatuses st) }

/-- `setConflicts(files)` (`ig` is `opts.shouldIgnore`); the incoming JS
`Set` is modelled as a list de-duplicated on construction. -/
def setConflicts (ig : String → Bool) (files : List String) (st : BadgeState) : BadgeState :=
  rebuildFolderStatuses
    { st with conflicts := jsDedup (files.filter (fun p => !ig p)) }

/-- `getStatus(path)`. -/
def getStatus (ig : String → Bool) (st : BadgeState) (path : String) : FileStatus :=
  if !st.enabled || ig path then .empty
  else if path ∈ st.conflicts then .U
  else (mget st.fileStatuses path).getD .empty

/-- `noteCreate(path)`. -/
def noteCreate (ig : String → Bool) (st : BadgeState) (path : String) : BadgeState :=
  if !st.enabled || ig path then st
  else if !st.trackedLoaded then st
  else
    let v : FileStatus := if path ∈ st.trackedFiles then .M else .A
    rebuildFolderStatuses { st with fileStatuses := mset st.fileStatuses path v }

/-- `noteModify(path)`. -/
def noteModify (ig : String → Bool) (st : BadgeState) (path : String) : BadgeState :=
  if !st.enabled || ig path then st
  else if !st.trackedLoaded then st
  else
    let cur := mget st.fileStatuses path
    if cur = some .A || cur = some .R then st
    else rebuildFolderStatuses { st with fileStatuses := mset st.fileStatuses path .M }

/-- `noteDelete(path)`. -/
def noteDelete (ig : String → Bool) (st : BadgeState) (path : String) : BadgeState :=
  if !st.enabled || ig path then st
  else
    rebuildFolderStatuses
      { st with fileStatuses := mdelete st.fileStatuses path
                conflicts := sdelete st.conflicts path }

/-- `noteRename(oldPath, newPath)`. -/
def noteRename (ig : String → Bool) (st : BadgeState) (oldPath newPath : String) :
    BadgeState :=
  if !st.enabled then st
  else if ig oldPath && ig newPath then st
  else
    let st1 := { st with fileStatuses := mdelete st.fileStatuses oldPath
                         conflicts := sdelete st.conflicts oldPath }
    let st2 :=
      if !ig newPath && st.trackedLoaded then
        let wasTracked := oldPath ∈ st.trackedFiles
        { st1 with
          trackedFiles :=
            if wasTracked then sadd (sdelete st1.trackedFiles oldPath) newPath
            else st1.trackedFiles
          fileStatuses := mset st1.fileStatuses newPath (if wasTracked then .R else .A) }
      else st1
    rebuildFolderStatuses st2

/-- `refresh()`: the concurrently awaited status and tracked-file queries
are one `Except` (a `Promise.all` rejects if either does); `cwd` is
`opts.getCwd()`.  The `catch` keeps the last known state. -/
def refresh (ig : String → Bool) (cwd : Option String)
    (queries : Except String (List (String × FileStatus) × List String))
    (st : BadgeState) : BadgeState :=
  if !st.enabled then st
  else
    match cwd with
    | none => st
    | some _ =>
      match queries with
      | .error _ => st
      | .ok (statuses, tracked) =>
        if !st.enabled then st
        else
          rebuildFolderStatuses
            { st with fileStatuses := statuses.filter (fun e => !ig e.1)
                      trackedFiles := tracked
                      trackedLoaded := true }

/-! ## Commit orchestrator (`main.ts`: `runCommit` and collaborators) -/

/-- The orchestrator flags of `AutoGitPlugin`. -/
structure OrchState where
  hasConflicts : Bool
  isCommitting : Bool
  pendingRerun : Bool
deriving DecidableEq

/-- `runCommit(reason)`'s reason argument. -/
inductive Reason
  | manual | auto
deriving DecidableEq

/-- The environment one `runCommit` body sees: plugin settings, the clock,
the vault path, and the outcomes of the subprocess calls it may make. -/
structure CommitEnv where
  vaultPath : Option String
  autoPush : Bool
  includeFileList : Bool
  commitTemplate : String
  dateStr : String
  timeStr : String
  changedFiles : Except String (List String)
  addResult : Except String Unit
  commitResult : Except String Unit
  branchResult : Except String String
  pushResult : Except String Unit

/-- `commitAll`: stage, commit, benign-no-op filtering of the commit error. -/
def commitAll (env : CommitEnv) (message : String) :
    Except String Unit × List (List String) :=
  match env.addResult with
  | .error e => (.error e, [addAllArgs])
  | .ok _ =>
    match env.commitResult with
    | .ok _ => (.ok (), [addAllArgs, commitArgs message])
    | .error msg =>
      (if hasSub msg "nothing to commit" || hasSub msg "no changes added" then .ok ()
       else .error msg, [addAllArgs, commitArgs message])

/-- `push`: resolve the current branch, then `push -u origin <branch>`. -/
def pushOp (env : CommitEnv) : Except String Unit × List (List String) :=
  match env.branchResult with
  | .error e => (.error e, [currentBranchArgs])
  | .ok b =>
    match env.pushResult with
    | .ok _ => (.ok (), [currentBranchArgs, pushUpstreamArgs (strTrim b)])
    | .error e => (.error e, [currentBranchArgs, pushUpstreamArgs (strTrim b)])

/-- `doPush`: push with all failures converted to a notice. -/
def doPush (env : CommitEnv) : List (List String) :=
  match env.vaultPath with
  | none => []
  | some _ => (pushOp env).2

/-- The commit-message subject built from the template. -/
def commitSubject (env : CommitEnv) (files : List String) : String :=
  renderTemplate env.commitTemplate
    [("date", env.dateStr), ("time", env.timeStr),
     ("files", joinSep ", " (files.take 5) ++ (if 5 < files.length then "..." else "")),
     ("count", toString files.length)]

/-- The full commit message (optional file-list body). -/
def commitMessage (env : CommitEnv) (files : List String) : String :=
  if env.includeFileList then commitSubject env files ++ "\n\n" ++ joinSep "\n" files
  else commitSubject env files

/-- The `try` block of `runCommit` from `getVaultPath()` on: whether a
commit was made, and the subprocess trace.  Thrown errors are caught and
turned into a notice, leaving `committed = false`. -/
def runCommitBody (env : CommitEnv) : Bool × List (List String) :=
  match env.vaultPath with
  | none => (false, [])
  | some _ =>
    match env.changedFiles with
    | .error _ => (false, [statusArgs])
    | .ok files =>
      if files.length = 0 then (false, [statusArgs])
      else
        match commitAll env (commitMessage env files) with
        | (.error _, cmds) => (false, statusArgs :: cmds)
        | (.ok _, cmds) =>
          (true, statusArgs :: cmds ++ (if env.autoPush then doPush env else []))

/-- The `finally` block of `runCommit`: drop the in-flight flag and report
whether a debounced re-run was scheduled (`pendingRerun` is left as is). -/
def commitFinish (st : OrchState) : OrchState × Bool :=
  ({ st with isCommitting := false }, st.pendingRerun)

/-- The outcome of one `runCommit` call. -/
structure CommitOutcome where
  committed : Bool
  state : OrchState
  cmds : List (List String)
  scheduled : Bool
deriving DecidableEq

/-- `runCommit(reason)` run to completion with no interleaved callers. -/
def runCommit (env : CommitEnv) (_reason : Reason) (st : OrchState) : CommitOutcome :=
  if st.hasConflicts then ⟨false, st, [], false⟩
  else if st.isCommitting then ⟨false, { st with pendingRerun := true }, [], false⟩
  else
    let st1 := { st with isCommitting := true, pendingRerun := false }
    let (committed, cmds) := runCommitBody env
    let (st2, scheduled) := commitFinish st1
    ⟨committed, st2, cmds, scheduled⟩

/-! Interleaved view of the orchestrator.  `runCommit` suspends only at
its awaited subprocess calls, so its synchronous entry section (conflict
gate, in-flight check, flag updates) and its `finally` section are the
atomic steps; a competing call can run entirely between them. -/

/-- An orchestrator event: a commit request (manual command or debounce
firing), or the in-flight commit's body finishing (success or failure). -/
inductive OrchEvent
  | request (reason : Reason)
  | finish
deriving DecidableEq

/-- What one atomic step did. -/
structure StepOut where
  state : OrchState
  began : Bool
  scheduled : Bool
deriving DecidableEq

/-- One atomic orchestrator step. -/
def orchStep (st : OrchState) : OrchEvent → StepOut
  | .request _ =>
    if st.hasConflicts then ⟨st, false, false⟩
    else if st.isCommitting then ⟨{ st with pendingRerun := true }, false, false⟩
    else ⟨{ st with isCommitting := true, pendingRerun := false }, true, false⟩
  | .finish => ⟨{ st with isCommitting := false }, false, st.pendingRerun⟩

/-- Event-sequence validity: a `finish` can only happen while a commit is
in flight. -/
def wfEvents (st : OrchState) : List OrchEvent → Bool
  | [] => true
  | e :: es =>
    (match e with
     | .finish => st.isCommitting
     | .request _ => true) && wfEvents (orchStep st e).state es

/-- The step outputs of an event sequence. -/
def orchTrace (st : OrchState) : List OrchEvent → List StepOut
  | [] => []
  | e :: es =>
    let o := orchStep st e
    o :: orchTrace o.state es

/-- How many steps of a trace began a commit invocation. -/
def beganCount (l : List StepOut) : Nat := (l.filter (fun o => o.began)).length

/-- How many events of a sequence are commit completions. -/
def finishCount (l : List OrchEvent) : Nat :=
  (l.filter (fun e => e = OrchEvent.finish)).length

/-- 1 if a commit is in flight, else 0. -/
def inFlight (st : OrchState) : Nat := if st.isCommitting then 1 else 0

/-! ## Supporting lemmas -/

theorem mem_jsDedupAux (x : String) :
    ∀ (l seen : List String), x ∈ jsDedupAux seen l ↔ x ∈ l ∧ x ∉ seen := by
  intro l
  induction l with
  | nil => intro seen; simp [jsDedupAux]
  | cons y ys ih =>
    intro seen
    by_cases hy : y ∈ seen
    · simp only [jsDedupAux, if_pos hy, ih, List.mem_cons]
      constructor
      · rintro ⟨hx, hs⟩; exact ⟨Or.inr hx, hs⟩
      · rintro ⟨rfl | hx, hs⟩
        · exact absurd hy hs
        · exact ⟨hx, hs⟩
    · simp only [jsDedupAux, if_neg hy, List.mem_cons, ih]
      constructor
      · rintro (rfl | ⟨hx, hs⟩)
        · exact ⟨Or.inl rfl, hy⟩
        · exact ⟨Or.inr hx, fun hc => hs (Or.inr hc)⟩
      · rintro ⟨rfl | hx, hs⟩
        · exact Or.inl rfl
        · by_cases hxy : x = y
          · exact Or.inl hxy
          · exact Or.inr ⟨hx, fun hc => hc.elim hxy hs⟩

theorem nodup_jsDedupAux : ∀ (l seen : List String), (jsDedupAux seen l).Nodup := by
  intro l
  induction l with
  | nil => intro seen; simp [jsDedupAux]
  | cons y ys ih =>
    intro seen
    by_cases hy : y ∈ seen
    · simpa [jsDedupAux, if_pos hy] using ih seen
    · simp only [jsDedupAux, if_neg hy]
      refine List.nodup_cons.mpr ⟨fun hc => ?_, ih (y :: seen)⟩
      exact ((mem_jsDedupAux y ys (y :: seen)).mp hc).2 (List.mem_cons_self y seen)

theorem mem_jsDedup (x : String) (l : List String) : x ∈ jsDedup l ↔ x ∈ l := by
  simp [jsDedup, mem_jsDedupAux]

theorem nodup_jsDedup (l : List String) : (jsDedup l).Nodup := nodup_jsDedupAux l []

theorem strTake_code (code path : String) (h : code.length = 2) :
    strTake (code ++ " " ++ path) 2 = code := by
  have hd : (code ++ " " ++ path).data = code.data ++ (' ' :: path.data) := by
    simp [String.data_append]
  have hl : code.data.length = 2 := h
  show String.mk ((code ++ " " ++ path).data.take 2) = code
  rw [hd, ← hl, List.take_left]

theorem strDrop_code (code path : String) (h : code.length = 2) :
    strDrop (code ++ " " ++ path) 3 = path := by
  have hd : (code ++ " " ++ path).data = (code.data ++ [' ']) ++ path.data := by
    simp [String.data_append]
  have hl : (code.data ++ [' ']).length = 3 := by
    have : code.data.length = 2 := h
    simp [this]
  show String.mk ((code ++ " " ++ path).data.drop 3) = path
  rw [hd, List.drop_left' hl]

theorem record_part_ne_empty (code path : String) : code ++ " " ++ path ≠ "" := by
  intro h
  have := congrArg String.length h
  simp [String.length_append] at this
  exact absurd this.1.2 (by decide)

theorem collectChanged_cons_plain (entry : String) (rest : List String)
    (h : isRenameCode (strTake entry 2) = false) :
    collectChanged (entry :: rest) =
      (if strDrop entry 3 ≠ "" then [strDrop entry 3] else []) ++ collectChanged rest := by
  cases rest with
  | nil => simp [collectChanged, h]
  | cons next rest2 => simp [collectChanged, h]

theorem collectChanged_cons_rename (entry next : String) (rest : List String)
    (h : isRenameCode (strTake entry 2) = true) :
    collectChanged (entry :: next :: rest) =
      (if next ≠ "" then [next] else []) ++ collectChanged rest := by
  simp [collectChanged, h]

theorem collectChanged_toParts :
    ∀ (rs : List ZRecord), (∀ r ∈ rs, r.wf = true) →
      collectChanged (rs.flatMap ZRecord.toParts) = rs.map ZRecord.emitted := by
  intro rs
  induction rs with
  | nil => intro _; simp [collectChanged]
  | cons r rest ih =>
    intro h
    have hr : r.wf = true := h r (List.mem_cons_self r rest)
    have hrest := ih (fun x hx => h x (List.mem_cons_of_mem r hx))
    cases r with
    | plain code path =>
      simp only [ZRecord.wf, Bool.and_eq_true, Bool.not_eq_true', decide_eq_true_eq] at hr
      obtain ⟨⟨h2, hnr⟩, hne⟩ := hr
      simp only [List.flatMap_cons, ZRecord.toParts, List.cons_append, List.nil_append,
        List.map_cons, ZRecord.emitted]
      have hcode : isRenameCode (strTake (code ++ " " ++ path) 2) = false := by
        rw [strTake_code code path h2]; exact hnr
      rw [collectChanged_cons_plain _ _ hcode, strDrop_code code path h2, hrest]
      simp [hne]
    | renameCopy code oldPath newPath =>
      simp only [ZRecord.wf, Bool.and_eq_true, decide_eq_true_eq] at hr
      obtain ⟨⟨h2, hren⟩, hne⟩ := hr
      simp only [List.flatMap_cons, ZRecord.toParts, List.cons_append, List.nil_append,
        List.map_cons, ZRecord.emitted]
      have hcode : isRenameCode (strTake (code ++ " " ++ oldPath) 2) = true := by
        rw [strTake_code code oldPath h2]; exact hren
      rw [collectChanged_cons_rename _ _ _ hcode, hrest]
      simp [hne]

theorem statusParts_empty : statusParts "" = [] := by decide

/-! ## Claim theorems -/

/-- C1: for every NUL-delimited porcelain status-query output that, read
as the specified record format, contains a rename/copy record, the list
returned by `getChangedFiles` contains the renamed file's new path exactly
once, does not contain its old path (assuming the old path is no record's
emitted path, as in any real status output), and contains no duplicates. -/
theorem getChangedFiles_rename_dedup
    (stdout : String) (rs : List ZRecord) (code oldPath newPath : String)
    (hparts : statusParts stdout = rs.flatMap ZRecord.toParts)
    (hwf : ∀ r ∈ rs, r.wf = true)
    (hmem : ZRecord.renameCopy code oldPath newPath ∈ rs)
    (hold : oldPath ∉ rs.map ZRecord.emitted) :
    (getChangedFiles stdout).count newPath = 1 ∧
    oldPath ∉ getChangedFiles stdout ∧
    (getChangedFiles stdout).Nodup := by
  have hne : stdout ≠ "" := by
    intro h
    rw [h, statusParts_empty] at hparts
    have hnil : ∀ r ∈ rs, r.toParts = [] := by
      intro r hrr
      have hj : (rs.map ZRecord.toParts).flatten = [] := by
        rw [← List.flatMap_def, ← hparts]
      exact (List.flatten_eq_nil_iff.mp hj) r.toParts (List.mem_map_of_mem _ hrr)
    have := hnil _ hmem
    simp [ZRecord.toParts] at this
  have hout : getChangedFiles stdout = jsDedup (rs.map ZRecord.emitted) := by
    unfold getChangedFiles
    rw [if_neg hne, hparts, collectChanged_toParts rs hwf]
  have hmemNew : newPath ∈ rs.map ZRecord.emitted := by
    have : (ZRecord.renameCopy code oldPath newPath).emitted = newPath := rfl
    exact this ▸ List.mem_map_of_mem ZRecord.emitted hmem
  refine ⟨?_, ?_, ?_⟩
  · rw [hout]
    exact List.count_eq_one_of_mem (nodup_jsDedup _)
      ((mem_jsDedup _ _).mpr hmemNew)
  · rw [hout]
    intro hc
    exact hold ((mem_jsDedup _ _).mp hc)
  · rw [hout]; exact nodup_jsDedup _

/-- Witness for C1 at the spec's own scenario (`a.md` new, `b.md`
modified, `c.md`→`d.md` renamed). -/
theorem getChangedFiles_rename_dedup_witness :
    statusParts "R  c.md\x00d.md\x00 M b.md\x00?? a.md\x00" =
      ([ZRecord.renameCopy "R " "c.md" "d.md", ZRecord.plain " M" "b.md",
        ZRecord.plain "??" "a.md"].flatMap ZRecord.toParts) ∧
    (∀ r ∈ [ZRecord.renameCopy "R " "c.md" "d.md", ZRecord.plain " M" "b.md",
        ZRecord.plain "??" "a.md"], r.wf = true) ∧
    ((getChangedFiles "R  c.md\x00d.md\x00 M b.md\x00?? a.md\x00").count "d.md" = 1 ∧
     "c.md" ∉ getChangedFiles "R  c.md\x00d.md\x00 M b.md\x00?? a.md\x00" ∧
     (getChangedFiles "R  c.md\x00d.md\x00 M b.md\x00?? a.md\x00").Nodup) :=
  ⟨by decide, by decide,
    getChangedFiles_rename_dedup "R  c.md\x00d.md\x00 M b.md\x00?? a.md\x00"
      [ZRecord.renameCopy "R " "c.md" "d.md", ZRecord.plain " M" "b.md",
        ZRecord.plain "??" "a.md"] "R " "c.md" "d.md"
      (by decide) (by decide) (by decide) (by decide)⟩

theorem dropWhile_length_le (p : Char → Bool) (l : List Char) :
    (l.dropWhile p).length ≤ l.length := by
  induction l with
  | nil => simp
  | cons a t ih =>
    rw [List.dropWhile_cons]
    split
    · exact Nat.le_trans ih (by simp)
    · simp

theorem matchVar_length {cs key rem : List Char} (h : matchVar cs = some (key, rem)) :
    rem.length + 2 ≤ cs.length := by
  unfold matchVar at h
  split at h
  · rename_i hc
    rw [Option.some_inj] at h
    have hrem : (varTail cs).drop 2 = rem := congrArg Prod.snd h
    rw [Bool.and_eq_true] at hc
    have htail : (varTail cs).length ≤ cs.length := by
      unfold varTail
      calc (((cs.dropWhile jsWhitespace).dropWhile jsWordChar).dropWhile jsWhitespace).length
          ≤ ((cs.dropWhile jsWhitespace).dropWhile jsWordChar).length :=
            dropWhile_length_le _ _
        _ ≤ (cs.dropWhile jsWhitespace).length := dropWhile_length_le _ _
        _ ≤ cs.length := dropWhile_length_le _ _
    have htake : (varTail cs).take 2 = ['}', '}'] := by
      have := hc.2; simpa using this
    have h2 : 2 ≤ (varTail cs).length := by
      have := congrArg List.length htake
      simp [List.length_take] at this
      omega
    have hdrop : ((varTail cs).drop 2).length = (varTail cs).length - 2 := by
      simp [List.length_drop]
    rw [← hrem]
    omega
  · exact absurd h (by simp)

theorem tryVarAt_length {c : Char} {rest key rem : List Char}
    (h : tryVarAt c rest = some (key, rem)) : rem.length < rest.length := by
  unfold tryVarAt at h
  split at h
  · split at h
    · rename_i rest2 _
      have := matchVar_length h
      simp_all
      omega
    · exact absurd h (by simp)
  · exact absurd h (by simp)

theorem findVar_length :
    ∀ (cs pre key rem : List Char), findVar cs = some (pre, key, rem) →
      rem.length < cs.length := by
  intro cs
  induction cs with
  | nil => intro _ _ _ h; simp [findVar] at h
  | cons c rest ih =>
    intro pre key rem h
    simp only [findVar] at h
    split at h
    · rename_i key' rem' heq
      rw [Option.some_inj] at h
      have hr : rem' = rem :=
        congrArg (fun t : List Char × List Char × List Char => t.2.2) h
      rw [← hr]
      exact Nat.lt_trans (tryVarAt_length heq) (by simp)
    · split at h
      · exact absurd h (by simp)
      · rename_i pre' key' rem' heq
        rw [Option.some_inj] at h
        have hr : rem' = rem :=
          congrArg (fun t : List Char × List Char × List Char => t.2.2) h
        rw [← hr]
        exact Nat.lt_trans (ih pre' key' rem' heq) (by simp)

theorem renderAux_of_none (vars : List (String × String)) (fuel : Nat) (cs : List Char)
    (h : findVar cs = none) : renderAux vars fuel cs = cs := by
  cases fuel with
  | zero => rfl
  | succ f => simp [renderAux, h]

theorem renderAux_fuel (vars : List (String × String)) :
    ∀ (fuel1 fuel2 : Nat) (cs : List Char), cs.length ≤ fuel1 → cs.length ≤ fuel2 →
      renderAux vars fuel1 cs = renderAux vars fuel2 cs := by
  intro fuel1
  induction fuel1 with
  | zero =>
    intro fuel2 cs h1 _
    have hcs : cs = [] := List.length_eq_zero.mp (Nat.le_zero.mp h1)
    subst hcs
    cases fuel2 with
    | zero => rfl
    | succ f2 => simp [renderAux, findVar]
  | succ f ih =>
    intro fuel2 cs h1 h2
    cases fuel2 with
    | zero =>
      have hcs : cs = [] := List.length_eq_zero.mp (Nat.le_zero.mp h2)
      subst hcs
      simp [renderAux, findVar]
    | succ f2 =>
      simp only [renderAux]
      cases hf : findVar cs with
      | none => rfl
      | some v =>
        obtain ⟨pre, key, rem⟩ := v
        have hlen := findVar_length cs pre key rem hf
        simp only
        rw [ih f2 rem (by omega) (by omega)]

theorem wordChar_not_ws {c : Char} (h : jsWordChar c = true) : jsWhitespace c = false := by
  simp only [jsWordChar, Bool.or_eq_true, Bool.and_eq_true, decide_eq_true_eq] at h
  simp only [jsWhitespace, Bool.or_eq_false_iff, Bool.and_eq_false_iff,
    decide_eq_false_iff_not, Decidable.not_not]
  omega

theorem takeWhile_append_stop (p : Char → Bool) :
    ∀ (l1 : List Char) (c2 : Char) (t2 : List Char), l1.all p = true → p c2 = false →
      (l1 ++ c2 :: t2).takeWhile p = l1 ∧ (l1 ++ c2 :: t2).dropWhile p = c2 :: t2 := by
  intro l1
  induction l1 with
  | nil =>
    intro c2 t2 _ h2
    simp [List.takeWhile_cons, List.dropWhile_cons, h2]
  | cons a l1' ih =>
    intro c2 t2 h1 h2
    rw [List.all_cons, Bool.and_eq_true] at h1
    have := ih c2 t2 h1.2 h2
    simp [List.takeWhile_cons, List.dropWhile_cons, h1.1, this.1, this.2]

theorem matchVar_key (key post : List Char) (hk : key ≠ [])
    (hw : key.all jsWordChar = true) :
    matchVar (key ++ '}' :: '}' :: post) = some (key, post) := by
  obtain ⟨k0, krest⟩ : ∃ k0 krest, key = k0 :: krest := by
    cases key with
    | nil => exact absurd rfl hk
    | cons a l => exact ⟨a, l, rfl⟩
  obtain ⟨krest, rfl⟩ := krest
  have hk0 : jsWordChar k0 = true := by
    rw [List.all_cons, Bool.and_eq_true] at hw; exact hw.1
  have hws0 : jsWhitespace k0 = false := wordChar_not_ws hk0
  have hclose : jsWordChar '}' = false := by decide
  have hclosews : jsWhitespace '}' = false := by decide
  have hdws : ((k0 :: krest) ++ '}' :: '}' :: post).dropWhile jsWhitespace =
      (k0 :: krest) ++ '}' :: '}' :: post := by
    simp [List.dropWhile_cons, hws0]
  have hsplit := takeWhile_append_stop jsWordChar (k0 :: krest) '}' ('}' :: post) hw hclose
  have hkey : varKey ((k0 :: krest) ++ '}' :: '}' :: post) = k0 :: krest := by
    unfold varKey
    rw [hdws, hsplit.1]
  have htail : varTail ((k0 :: krest) ++ '}' :: '}' :: post) = '}' :: '}' :: post := by
    unfold varTail
    rw [hdws, hsplit.2, List.dropWhile_cons, if_neg (by simp [hclosews])]
  unfold matchVar
  rw [hkey, htail]
  simp

theorem findVar_at_var (key post : List Char) (hk : key ≠ [])
    (hw : key.all jsWordChar = true) :
    findVar ('{' :: '{' :: (key ++ '}' :: '}' :: post)) = some ([], key, post) := by
  simp [findVar, tryVarAt, matchVar_key key post hk hw]

theorem data_mk (l : List Char) : (String.mk l).data = l := rfl

theorem renderTemplate_substitution (vars : List (String × String)) (key post : String)
    (hk : key ≠ "") (hw : key.data.all jsWordChar = true) :
    renderTemplate ("\x7b\x7b" ++ key ++ "\x7d\x7d" ++ post) vars =
      lookupVar vars key ++ renderTemplate post vars := by
  have hkd : key.data ≠ [] := by
    intro h
    exact hk (show key = "" from congrArg String.mk h)
  have hdata : ("\x7b\x7b" ++ key ++ "\x7d\x7d" ++ post).data =
      '{' :: '{' :: (key.data ++ '}' :: '}' :: post.data) := by
    simp [String.data_append]
  unfold renderTemplate
  rw [hdata]
  have hlen : ('{' :: '{' :: (key.data ++ '}' :: '}' :: post.data)).length =
      (key.data.length + post.data.length + 3) + 1 := by
    simp
    omega
  rw [hlen, renderAux]
  simp only [findVar_at_var key.data post.data hkd hw]
  rw [renderAux_fuel vars (key.data.length + post.data.length + 3) post.data.length
    post.data (by omega) (le_refl _)]
  rfl

theorem renderTemplate_verbatim (t : String) (vars : List (String × String))
    (h : findVar t.data = none) : renderTemplate t vars = t := by
  unfold renderTemplate
  rw [renderAux_of_none vars _ _ h]

/-- C9: `renderTemplate` substitutes each `{{key}}` occurrence with the
bound value (compositionally, at every leading occurrence), yields exactly
`"vault backup: 2025-12-20 10:30:00"` on the spec's example, renders
unknown variables as the empty string, and leaves malformed braces
verbatim in the output. -/
theorem renderTemplate_spec :
    (renderTemplate "vault backup: {{date}} {{time}}"
        [("date", "2025-12-20"), ("time", "10:30:00")] =
      "vault backup: 2025-12-20 10:30:00") ∧
    (∀ (vars : List (String × String)) (key post : String),
        key ≠ "" → key.data.all jsWordChar = true →
        renderTemplate ("\x7b\x7b" ++ key ++ "\x7d\x7d" ++ post) vars =
          lookupVar vars key ++ renderTemplate post vars) ∧
    (∀ (vars : List (String × String)) (key post : String),
        key ≠ "" → key.data.all jsWordChar = true →
        vars.find? (fun p => p.1 == key) = none →
        renderTemplate ("\x7b\x7b" ++ key ++ "\x7d\x7d" ++ post) vars = renderTemplate post vars) ∧
    (∀ vars : List (String × String),
        renderTemplate "\x7bdate\x7d \x7b\x7b\x7d\x7d \x7b\x7bdate" vars = "\x7bdate\x7d \x7b\x7b\x7d\x7d \x7b\x7bdate") := by
  refine ⟨by decide, fun vars key post hk hw => renderTemplate_substitution vars key post hk hw,
    fun vars key post hk hw hfind => ?_, fun vars => renderTemplate_verbatim _ vars (by decide)⟩
  rw [renderTemplate_substitution vars key post hk hw]
  have hl : lookupVar vars key = "" := by
    unfold lookupVar
    rw [hfind]
  rw [hl]
  rfl

/-- Witness for C9's quantified conjuncts at a concrete instantiation. -/
theorem renderTemplate_spec_witness :
    ("date" ≠ "" ∧ "date".data.all jsWordChar = true) ∧
    renderTemplate ("\x7b\x7b" ++ "date" ++ "\x7d\x7d" ++ "!") [("k", "v")] =
      lookupVar [("k", "v")] "date" ++ renderTemplate "!" [("k", "v")] :=
  ⟨⟨by decide, by decide⟩,
    renderTemplate_spec.2.1 [("k", "v")] "date" "!" (by decide) (by decide)⟩

/-! ## Badge-engine lemmas -/

theorem rebuild_enabled (st : BadgeState) :
    (rebuildFolderStatuses st).enabled = st.enabled := rfl

theorem rebuild_fileStatuses (st : BadgeState) :
    (rebuildFolderStatuses st).fileStatuses = st.fileStatuses := rfl

theorem rebuild_trackedFiles (st : BadgeState) :
    (rebuildFolderStatuses st).trackedFiles = st.trackedFiles := rfl

theorem rebuild_trackedLoaded (st : BadgeState) :
    (rebuildFolderStatuses st).trackedLoaded = st.trackedLoaded := rfl

theorem rebuild_conflicts (st : BadgeState) :
    (rebuildFolderStatuses st).conflicts = st.conflicts := rfl

theorem mget_mset_self (m : List (String × FileStatus)) (k : String) (v : FileStatus) :
    mget (mset m k v) k = some v := by
  induction m with
  | nil => simp [mget, mset, List.find?]
  | cons e rest ih =>
    by_cases he : e.1 = k
    · simp [mset, mget, List.find?, he]
    · have hbeq : (e.1 == k) = false := beq_eq_false_iff_ne.mpr he
      simp only [mset, hbeq, Bool.false_eq_true, if_false]
      simp only [mget, List.find?, hbeq] at ih ⊢
      exact ih

theorem mget_mset_ne (m : List (String × FileStatus)) (k g : String) (v : FileStatus)
    (h : g ≠ k) : mget (mset m k v) g = mget m g := by
  induction m with
  | nil =>
    have hbeq : (k == g) = false := beq_eq_false_iff_ne.mpr (Ne.symm h)
    simp [mget, mset, List.find?, hbeq]
  | cons e rest ih =>
    by_cases he : e.1 = k
    · have hk : (k == g) = false := beq_eq_false_iff_ne.mpr (Ne.symm h)
      have he2 : (e.1 == g) = false := by
        rw [he]; exact hk
      simp [mset, mget, List.find?, he, hk, he2]
    · have hbeq : (e.1 == k) = false := beq_eq_false_iff_ne.mpr he
      have hmset : mset (e :: rest) k v = e :: mset rest k v := by
        simp [mset, hbeq]
      rw [hmset]
      by_cases hg : e.1 = g
      · have hbg : (e.1 == g) = true := beq_iff_eq.mpr hg
        simp [mget, List.find?, hbg]
      · have hbg : (e.1 == g) = false := beq_eq_false_iff_ne.mpr hg
        simp only [mget, List.find?, hbg] at ih ⊢
        exact ih

theorem folderPrio_updateFolder_self (fo : List (String × FileStatus)) (f : String)
    (s : FileStatus) :
    folderPrio (updateFolder fo f s) f = max (priority s) (folderPrio fo f) := by
  unfold updateFolder
  cases hget : mget fo f with
  | none =>
    rw [if_pos (by simp [folderFalsy])]
    simp only [folderPrio, mget_mset_self, hget]
    omega
  | some cur =>
    by_cases hfal : folderFalsy (some cur) = true
    · rw [if_pos (by simp [hfal])]
      have hcur : cur = FileStatus.empty := by
        cases cur <;> simp_all [folderFalsy]
      subst hcur
      simp only [folderPrio, mget_mset_self, hget, priority]
      omega
    · by_cases hlt : priority cur < priority s
      · rw [if_pos (by simp [hfal, hlt])]
        simp only [folderPrio, mget_mset_self, hget]
        omega
      · rw [if_neg (by simp [hfal, hlt])]
        simp only [folderPrio, hget]
        omega

theorem folderPrio_updateFolder_ne (fo : List (String × FileStatus)) (f g : String)
    (s : FileStatus) (h : g ≠ f) :
    folderPrio (updateFolder fo f s) g = folderPrio fo g := by
  unfold updateFolder
  split
  · simp only [folderPrio, mget_mset_ne fo f g s h]
  · rfl

theorem folderPrio_foldl_update (s : FileStatus) (f : String) :
    ∀ (ps : List String) (fo : List (String × FileStatus)),
      folderPrio (ps.foldl (fun a folder => updateFolder a folder s) fo) f =
        if f ∈ ps then max (priority s) (folderPrio fo f) else folderPrio fo f := by
  intro ps
  induction ps with
  | nil => intro fo; simp
  | cons q ps ih =>
    intro fo
    rw [List.foldl_cons, ih]
    by_cases hq : f = q
    · subst hq
      rw [folderPrio_updateFolder_self]
      by_cases hmem : f ∈ ps
      · simp only [hmem, if_true, List.mem_cons, true_or, or_true]
        omega
      · simp [hmem]
    · rw [folderPrio_updateFolder_ne fo q f s hq]
      by_cases hmem : f ∈ ps
      · simp [hmem, List.mem_cons, hq]
      · simp [hmem, List.mem_cons, hq]

theorem folderPrio_updateFoldersFor (fo : List (String × FileStatus)) (path : String)
    (s : FileStatus) (f : String) :
    folderPrio (updateFoldersFor fo path s) f =
      if f ∈ folderPrefixes path then max (priority s) (folderPrio fo f)
      else folderPrio fo f :=
  folderPrio_foldl_update s f (folderPrefixes path) fo

theorem folderPrio_foldl_entries (f : String) :
    ∀ (entries : List (String × FileStatus)) (fo : List (String × FileStatus)),
      folderPrio (entries.foldl (fun a e => updateFoldersFor a e.1 e.2) fo) f =
        max (descendantMax entries f) (folderPrio fo f) := by
  intro entries
  induction entries with
  | nil => intro fo; simp [descendantMax]
  | cons e t ih =>
    intro fo
    rw [List.foldl_cons, ih, folderPrio_updateFoldersFor]
    simp only [descendantMax, List.map_cons, List.foldr_cons]
    by_cases hmem : f ∈ folderPrefixes e.1
    · simp only [hmem, if_true]
      have : descendantMax t f =
          (t.map (fun e => if f ∈ folderPrefixes e.1 then priority e.2 else 0)).foldr max 0 :=
        rfl
      rw [← this]
      omega
    · simp only [hmem, if_false]
      have : descendantMax t f =
          (t.map (fun e => if f ∈ folderPrefixes e.1 then priority e.2 else 0)).foldr max 0 :=
        rfl
      rw [← this]
      omega

theorem folderPrio_nil (f : String) : folderPrio [] f = 0 := rfl

theorem folderPrio_computeFolders (merged : List (String × FileStatus)) (f : String) :
    folderPrio (computeFolders merged) f = descendantMax merged f := by
  unfold computeFolders
  rw [folderPrio_foldl_entries f merged [], folderPrio_nil]
  omega

/-- C4: rebuilding the folder map from the same file-status map and
conflict set is idempotent, and every folder's recorded precedence is the
maximum precedence among the merged (file ∪ conflict) statuses of its
descendant files; `priority` is injective, so this pins the folder's
status itself (precedence `U > A > M > R > none`). -/
theorem rebuildFolderStatuses_spec (st : BadgeState) (f : String) :
    rebuildFolderStatuses (rebuildFolderStatuses st) = rebuildFolderStatuses st ∧
    folderPrio (rebuildFolderStatuses st).folderStatuses f =
      descendantMax (mergedStatuses st) f ∧
    (∀ s1 s2 : FileStatus, priority s1 = priority s2 → s1 = s2) := by
  refine ⟨rfl, ?_, fun s1 s2 h => by cases s1 <;> cases s2 <;> simp_all [priority]⟩
  show folderPrio (computeFolders (mergedStatuses st)) f = descendantMax (mergedStatuses st) f
  exact folderPrio_computeFolders (mergedStatuses st) f

/-- C6: if the status/tracked-file queries of `refresh()` fail, the engine
state (its file-status, folder-status, tracked-file and conflict maps) is
left exactly as it was; the failure is absorbed, not propagated. -/
theorem refresh_failure_keeps_state (ig : String → Bool) (cwd : Option String)
    (e : String) (st : BadgeState) :
    refresh ig cwd (Except.error e) st = st := by
  unfold refresh
  split
  · rfl
  · cases cwd <;> rfl

theorem noteCreate_conflicts (ig : String → Bool) (st : BadgeState) (p : String) :
    (noteCreate ig st p).conflicts = st.conflicts := by
  unfold noteCreate
  split
  · rfl
  · split <;> rfl

theorem noteModify_conflicts (ig : String → Bool) (st : BadgeState) (p : String) :
    (noteModify ig st p).conflicts = st.conflicts := by
  unfold noteModify
  split
  · rfl
  · split
    · rfl
    · dsimp only
      split <;> rfl

theorem noteDelete_conflicts_subset (ig : String → Bool) (st : BadgeState) (p : String) :
    ∀ x ∈ (noteDelete ig st p).conflicts, x ∈ st.conflicts := by
  unfold noteDelete
  split
  · intro x hx; exact hx
  · intro x hx
    exact List.mem_of_mem_filter (show x ∈ sdelete st.conflicts p from hx)

theorem noteRename_conflicts_subset (ig : String → Bool) (st : BadgeState)
    (old new : String) :
    ∀ x ∈ (noteRename ig st old new).conflicts, x ∈ st.conflicts := by
  unfold noteRename
  split
  · intro x hx; exact hx
  · split
    · intro x hx; exact hx
    · intro x hx
      have hx' : x ∈ sdelete st.conflicts old := by
        revert hx
        split <;> (intro hx; exact hx)
      exact List.mem_of_mem_filter hx'

theorem refresh_conflicts (ig : String → Bool) (cwd : Option String)
    (qr : Except String (List (String × FileStatus) × List String)) (st : BadgeState) :
    (refresh ig cwd qr st).conflicts = st.conflicts := by
  unfold refresh
  split
  · rfl
  · cases cwd with
    | none => rfl
    | some c =>
      cases qr with
      | error e => rfl
      | ok v =>
        obtain ⟨statuses, tracked⟩ := v
        split <;> rfl

theorem setConflicts_mem (ig : String → Bool) (files : List String) (st : BadgeState) :
    ∀ x ∈ (setConflicts ig files st).conflicts, ig x = false := by
  intro x hx
  have hmem := (mem_jsDedup x _).mp (show x ∈ jsDedup (files.filter (fun p => !ig p)) from hx)
  have := List.of_mem_filter hmem
  simpa using this

/-- C10: the conflict set never holds an ignored path — `setConflicts`
filters through the ignore predicate, the incremental note operations and
`refresh` only preserve or shrink the conflict set — and `getStatus`
returns the none status (never Unmerged) for every ignored path. -/
theorem conflicts_respect_ignore
    (ig : String → Bool) (st : BadgeState) (files : List String)
    (cwd : Option String) (qr : Except String (List (String × FileStatus) × List String))
    (p old new q : String)
    (hinv : ∀ x ∈ st.conflicts, ig x = false) :
    (∀ x ∈ (setConflicts ig files st).conflicts, ig x = false) ∧
    (∀ x ∈ (noteCreate ig st p).conflicts, ig x = false) ∧
    (∀ x ∈ (noteModify ig st p).conflicts, ig x = false) ∧
    (∀ x ∈ (noteDelete ig st p).conflicts, ig x = false) ∧
    (∀ x ∈ (noteRename ig st old new).conflicts, ig x = false) ∧
    (∀ x ∈ (refresh ig cwd qr st).conflicts, ig x = false) ∧
    (ig q = true → getStatus ig st q = FileStatus.empty) := by
  refine ⟨setConflicts_mem ig files st, ?_, ?_, ?_, ?_, ?_, ?_⟩
  · intro x hx; exact hinv x (by rwa [noteCreate_conflicts] at hx)
  · intro x hx; exact hinv x (by rwa [noteModify_conflicts] at hx)
  · intro x hx; exact hinv x (noteDelete_conflicts_subset ig st p x hx)
  · intro x hx; exact hinv x (noteRename_conflicts_subset ig st old new x hx)
  · intro x hx; exact hinv x (by rwa [refresh_conflicts] at hx)
  · intro hq
    unfold getStatus
    rw [if_pos (by simp [hq])]

/-- Witness for C10 at a concrete engine state and ignore predicate. -/
theorem conflicts_respect_ignore_witness :
    (∀ x ∈ (⟨true, [], [], [], true, ["a.md"]⟩ : BadgeState).conflicts,
      (fun s => strStartsWith s ".obsidian/") x = false) ∧
    ((∀ x ∈ (setConflicts (fun s => strStartsWith s ".obsidian/")
        [".obsidian/w.json", "b.md"] ⟨true, [], [], [], true, ["a.md"]⟩).conflicts,
        (fun s => strStartsWith s ".obsidian/") x = false) ∧
     (∀ x ∈ (noteCreate (fun s => strStartsWith s ".obsidian/")
        ⟨true, [], [], [], true, ["a.md"]⟩ "c.md").conflicts,
        (fun s => strStartsWith s ".obsidian/") x = false) ∧
     (∀ x ∈ (noteModify (fun s => strStartsWith s ".obsidian/")
        ⟨true, [], [], [], true, ["a.md"]⟩ "c.md").conflicts,
        (fun s => strStartsWith s ".obsidian/") x = false) ∧
     (∀ x ∈ (noteDelete (fun s => strStartsWith s ".obsidian/")
        ⟨true, [], [], [], true, ["a.md"]⟩ "c.md").conflicts,
        (fun s => strStartsWith s ".obsidian/") x = false) ∧
     (∀ x ∈ (noteRename (fun s => strStartsWith s ".obsidian/")
        ⟨true, [], [], [], true, ["a.md"]⟩ "c.md" "d.md").conflicts,
        (fun s => strStartsWith s ".obsidian/") x = false) ∧
     (∀ x ∈ (refresh (fun s => strStartsWith s ".obsidian/") (some "/v")
        (Except.ok ([("e.md", FileStatus.M)], ["e.md"]))
        ⟨true, [], [], [], true, ["a.md"]⟩).conflicts,
        (fun s => strStartsWith s ".obsidian/") x = false) ∧
     ((fun s => strStartsWith s ".obsidian/") ".obsidian/q.md" = true →
        getStatus (fun s => strStartsWith s ".obsidian/")
          ⟨true, [], [], [], true, ["a.md"]⟩ ".obsidian/q.md" = FileStatus.empty)) :=
  ⟨by decide,
    conflicts_respect_ignore (fun s => strStartsWith s ".obsidian/")
      ⟨true, [], [], [], true, ["a.md"]⟩ [".obsidian/w.json", "b.md"] (some "/v")
      (Except.ok ([("e.md", FileStatus.M)], ["e.md"]))
      "c.md" "c.md" "d.md" ".obsidian/q.md" (by decide)⟩

/-- C5 counterexample: before the first refresh (tracked baseline not yet
loaded), the incremental calls do NOT all leave the maps unchanged —
`noteDelete` still removes the path from the conflict set. -/
theorem note_ops_before_refresh_counterexample :
    ¬ (noteDelete (fun _ => false) ⟨true, [], [], [], false, ["a.md"]⟩ "a.md" =
        (⟨true, [], [], [], false, ["a.md"]⟩ : BadgeState)) := by decide

/-- C5 (amended): with the engine enabled and the paths not ignored, the
note operations are the stated transition function once the tracked
baseline is loaded; before the first refresh completes, `noteCreate` and
`noteModify` leave the state unchanged, while `noteDelete` and
`noteRename` still remove the old path's status and conflict entries
(`noteRename` skips only the new-path insertion and tracked-set
migration). -/
theorem note_ops_transition
    (ig : String → Bool) (st : BadgeState) (p old new : String)
    (he : st.enabled = true) :
    (st.trackedLoaded = true → ig p = false →
      (noteCreate ig st p).fileStatuses =
        mset st.fileStatuses p (if p ∈ st.trackedFiles then FileStatus.M else FileStatus.A) ∧
      (noteCreate ig st p).conflicts = st.conflicts ∧
      (noteCreate ig st p).trackedFiles = st.trackedFiles) ∧
    (st.trackedLoaded = true → ig p = false →
      ((mget st.fileStatuses p = some FileStatus.A ∨
          mget st.fileStatuses p = some FileStatus.R) →
        noteModify ig st p = st) ∧
      (mget st.fileStatuses p ≠ some FileStatus.A →
        mget st.fileStatuses p ≠ some FileStatus.R →
        (noteModify ig st p).fileStatuses = mset st.fileStatuses p FileStatus.M ∧
        (noteModify ig st p).conflicts = st.conflicts ∧
        (noteModify ig st p).trackedFiles = st.trackedFiles)) ∧
    (ig p = false →
      (noteDelete ig st p).fileStatuses = mdelete st.fileStatuses p ∧
      (noteDelete ig st p).conflicts = sdelete st.conflicts p ∧
      (noteDelete ig st p).trackedFiles = st.trackedFiles) ∧
    (st.trackedLoaded = true → ig old = false → ig new = false →
      (noteRename ig st old new).fileStatuses =
        mset (mdelete st.fileStatuses old) new
          (if old ∈ st.trackedFiles then FileStatus.R else FileStatus.A) ∧
      (noteRename ig st old new).conflicts = sdelete st.conflicts old ∧
      (noteRename ig st old new).trackedFiles =
        (if old ∈ st.trackedFiles then sadd (sdelete st.trackedFiles old) new
         else st.trackedFiles)) ∧
    (st.trackedLoaded = false →
      noteCreate ig st p = st ∧ noteModify ig st p = st) ∧
    (st.trackedLoaded = false → ig old = false → ig new = false →
      (noteRename ig st old new).fileStatuses = mdelete st.fileStatuses old ∧
      (noteRename ig st old new).conflicts = sdelete st.conflicts old ∧
      (noteRename ig st old new).trackedFiles = st.trackedFiles) := by
  refine ⟨?_, ?_, ?_, ?_, ?_, ?_⟩
  · intro hl hp
    refine ⟨?_, ?_, ?_⟩ <;> simp [noteCreate, he, hp, hl, rebuild_fileStatuses, rebuild_conflicts, rebuild_trackedFiles]
  · intro hl hp
    constructor
    · intro hcur
      rcases hcur with hcur | hcur <;> simp [noteModify, he, hp, hl, hcur, rebuild_fileStatuses, rebuild_conflicts, rebuild_trackedFiles]
    · intro hA hR
      refine ⟨?_, ?_, ?_⟩ <;> simp [noteModify, he, hp, hl, hA, hR, rebuild_fileStatuses, rebuild_conflicts, rebuild_trackedFiles]
  · intro hp
    refine ⟨?_, ?_, ?_⟩ <;> simp [noteDelete, he, hp, rebuild_fileStatuses, rebuild_conflicts, rebuild_trackedFiles]
  · intro hl hold hnew
    refine ⟨?_, ?_, ?_⟩ <;> simp [noteRename, he, hold, hnew, hl, rebuild_fileStatuses, rebuild_conflicts, rebuild_trackedFiles]
  · intro hl
    constructor <;> simp [noteCreate, noteModify, he, hl, rebuild_fileStatuses, rebuild_conflicts, rebuild_trackedFiles]
  · intro hl hold hnew
    refine ⟨?_, ?_, ?_⟩ <;> simp [noteRename, he, hold, hnew, hl, rebuild_fileStatuses, rebuild_conflicts, rebuild_trackedFiles]

/-- Witness for C5's amended transition rules at a concrete state. -/
theorem note_ops_transition_witness :
    (⟨true, [("a.md", FileStatus.M)], [], ["t.md"], true, ["c.md"]⟩ : BadgeState).enabled =
      true ∧
    (noteCreate (fun _ => false)
        ⟨true, [("a.md", FileStatus.M)], [], ["t.md"], true, ["c.md"]⟩ "b.md").fileStatuses =
      mset [("a.md", FileStatus.M)] "b.md"
        (if "b.md" ∈ ["t.md"] then FileStatus.M else FileStatus.A) :=
  ⟨rfl,
    ((note_ops_transition (fun _ => false)
        ⟨true, [("a.md", FileStatus.M)], [], ["t.md"], true, ["c.md"]⟩
        "b.md" "x.md" "y.md" rfl).1 rfl rfl).1⟩

/-! ## Orchestrator lemmas -/

theorem beganCount_cons (o : StepOut) (l : List StepOut) :
    beganCount (o :: l) = (if o.began then 1 else 0) + beganCount l := by
  by_cases h : o.began <;> simp [beganCount, List.filter_cons, h, Nat.add_comm]

theorem finishCount_cons (e : OrchEvent) (l : List OrchEvent) :
    finishCount (e :: l) = (if e = OrchEvent.finish then 1 else 0) + finishCount l := by
  by_cases h : e = OrchEvent.finish <;> simp [finishCount, List.filter_cons, h, Nat.add_comm]

theorem orch_step_bound (st : OrchState) (e : OrchEvent)
    (hwf : (match e with
            | OrchEvent.finish => st.isCommitting
            | OrchEvent.request _ => true) = true) :
    (if (orchStep st e).began then 1 else 0) + inFlight st ≤
      (if e = OrchEvent.finish then 1 else 0) + inFlight (orchStep st e).state := by
  cases e with
  | request r =>
    unfold orchStep
    split
    · simp [inFlight]
    · split
      · rename_i hcf hic
        simp only [inFlight]
        simp_all
      · rename_i hcf hic
        simp only [inFlight]
        simp_all [Bool.not_eq_true]
  | finish =>
    simp only at hwf
    simp [orchStep, inFlight, hwf]

/-- C2: while the conflict flag is set, `runCommit` (for any reason)
returns "not committed", invokes no subprocess at all (in particular no
stage or commit), and leaves the orchestrator state — `isCommitting` and
`pendingRerun` included — untouched. -/
theorem runCommit_conflict_gate (env : CommitEnv) (reason : Reason) (st : OrchState)
    (h : st.hasConflicts = true) :
    (runCommit env reason st).committed = false ∧
    (runCommit env reason st).cmds = [] ∧
    (runCommit env reason st).state = st ∧
    (runCommit env reason st).scheduled = false := by
  unfold runCommit
  rw [if_pos h]
  exact ⟨rfl, rfl, rfl, rfl⟩

/-- Witness for C2 at a concrete environment and state. -/
theorem runCommit_conflict_gate_witness :
    (⟨true, false, false⟩ : OrchState).hasConflicts = true ∧
    ((runCommit ⟨some "/v", true, true, "m", "d", "t", Except.ok ["a.md"], Except.ok (),
        Except.ok (), Except.ok "main", Except.ok ()⟩ Reason.manual
        ⟨true, false, false⟩).committed = false ∧
     (runCommit ⟨some "/v", true, true, "m", "d", "t", Except.ok ["a.md"], Except.ok (),
        Except.ok (), Except.ok "main", Except.ok ()⟩ Reason.manual
        ⟨true, false, false⟩).cmds = [] ∧
     (runCommit ⟨some "/v", true, true, "m", "d", "t", Except.ok ["a.md"], Except.ok (),
        Except.ok (), Except.ok "main", Except.ok ()⟩ Reason.manual
        ⟨true, false, false⟩).state = ⟨true, false, false⟩ ∧
     (runCommit ⟨some "/v", true, true, "m", "d", "t", Except.ok ["a.md"], Except.ok (),
        Except.ok (), Except.ok "main", Except.ok ()⟩ Reason.manual
        ⟨true, false, false⟩).scheduled = false) :=
  ⟨rfl,
    runCommit_conflict_gate
      ⟨some "/v", true, true, "m", "d", "t", Except.ok ["a.md"], Except.ok (),
        Except.ok (), Except.ok "main", Except.ok ()⟩ Reason.manual
      ⟨true, false, false⟩ rfl⟩

/-- C3: a request while a commit is in flight only sets `pendingRerun`
(no invocation begins, nothing runs synchronously); the finish step
schedules exactly one debounced re-run iff `pendingRerun` was set and
begins nothing; and along every valid event sequence the number of begun
invocations in any prefix never exceeds the completions plus one in-flight
commit — two commit invocations never run concurrently. -/
theorem commit_serialization :
    (∀ (st : OrchState) (r : Reason), st.hasConflicts = false → st.isCommitting = true →
      orchStep st (OrchEvent.request r) =
        ⟨{ st with pendingRerun := true }, false, false⟩) ∧
    (∀ st : OrchState,
      orchStep st OrchEvent.finish =
        ⟨{ st with isCommitting := false }, false, st.pendingRerun⟩) ∧
    (∀ (events : List OrchEvent) (st : OrchState) (n : Nat),
      wfEvents st events = true →
      beganCount ((orchTrace st events).take n) + inFlight st ≤
        finishCount (events.take n) + 1) := by
  refine ⟨?_, fun st => rfl, ?_⟩
  · intro st r hc hic
    unfold orchStep
    rw [if_neg (by simp [hc]), if_pos hic]
  · intro events
    induction events with
    | nil =>
      intro st n _
      simp only [orchTrace, List.take_nil, beganCount, finishCount, List.filter_nil,
        List.length_nil]
      unfold inFlight
      split <;> omega
    | cons e es ih =>
      intro st n hwf
      rw [wfEvents.eq_def, Bool.and_eq_true] at hwf
      cases n with
      | zero =>
        simp only [List.take_zero, beganCount, finishCount, List.filter_nil, List.length_nil]
        unfold inFlight
        split <;> omega
      | succ m =>
        have hstep := orch_step_bound st e hwf.1
        have hih := ih (orchStep st e).state m hwf.2
        simp only [orchTrace, List.take_succ_cons, beganCount_cons, finishCount_cons]
        omega

/-- Witness for C3's serialization bound on a concrete run: two requests
racing one in-flight commit, then the finish. -/
theorem commit_serialization_witness :
    wfEvents ⟨false, false, false⟩
      [OrchEvent.request Reason.auto, OrchEvent.request Reason.manual, OrchEvent.finish] =
      true ∧
    beganCount ((orchTrace ⟨false, false, false⟩
        [OrchEvent.request Reason.auto, OrchEvent.request Reason.manual,
          OrchEvent.finish]).take 3) + inFlight ⟨false, false, false⟩ ≤
      finishCount ([OrchEvent.request Reason.auto, OrchEvent.request Reason.manual,
        OrchEvent.finish].take 3) + 1 :=
  ⟨by decide,
    commit_serialization.2.2
      [OrchEvent.request Reason.auto, OrchEvent.request Reason.manual, OrchEvent.finish]
      ⟨false, false, false⟩ 3 (by decide)⟩

/-! ## Pull lemmas -/

theorem detect_trace_subset (env : GitEnv) :
    ∀ args ∈ (detectRepoState env).2,
      args = gitDirArgs ∨ args = revParseHeadArgs ∨ args = remoteGetUrlArgs ∨
        args = upstreamArgs := by
  intro args
  unfold detectRepoState isGitRepo getRemoteUrl
  rcases env.run gitDirArgs with e1 | s1 <;>
    rcases env.run revParseHeadArgs with e2 | s2 <;>
    rcases env.run remoteGetUrlArgs with e3 | s3 <;>
    rcases env.run upstreamArgs with e4 | s4 <;>
    (try by_cases hurl : strTrim s3 = "") <;>
    intro hmem <;> simp_all <;> tauto

theorem detect_trace_no_pull (env : GitEnv) :
    ∀ args ∈ (detectRepoState env).2, args.head? ≠ some "pull" := by
  intro args hmem
  rcases detect_trace_subset env args hmem with rfl | rfl | rfl | rfl <;> decide

/-- C8: when the detected repository state is anything but ready, `pull`
returns the structured not-ready result (`success = false`,
`notReady = true`), its subprocess trace is exactly the readiness probes,
and no `pull` subprocess is ever invoked. -/
theorem pull_not_ready (env : GitEnv)
    (h : (detectRepoState env).1 ≠ RepoState.ready) :
    (pull env).1 = Except.ok
      ⟨false, false, "Repository not ready: " ++ ((detectRepoState env).1).str, true⟩ ∧
    (pull env).2 = (detectRepoState env).2 ∧
    (∀ args ∈ (pull env).2, args.head? ≠ some "pull") := by
  have key : pull env = (Except.ok
      ⟨false, false, "Repository not ready: " ++ ((detectRepoState env).1).str, true⟩,
      (detectRepoState env).2) := by
    unfold pull
    rcases hd : detectRepoState env with ⟨state, t0⟩
    rw [hd] at h
    dsimp only
    rw [if_pos h]
  refine ⟨by rw [key], by rw [key], ?_⟩
  rw [key]
  exact detect_trace_no_pull env

/-- Witness for C8: a repository with commits and a remote but no
upstream — `pull` reports not ready and runs only the probes. -/
theorem pull_not_ready_witness :
    (detectRepoState ⟨fun args =>
        if args = upstreamArgs then Except.error "no upstream"
        else if args = remoteGetUrlArgs then Except.ok "git@example:r.git"
        else Except.ok ""⟩).1 ≠ RepoState.ready ∧
    ((pull ⟨fun args =>
        if args = upstreamArgs then Except.error "no upstream"
        else if args = remoteGetUrlArgs then Except.ok "git@example:r.git"
        else Except.ok ""⟩).1 = Except.ok
        ⟨false, false, "Repository not ready: " ++
          ((detectRepoState ⟨fun args =>
              if args = upstreamArgs then Except.error "no upstream"
              else if args = remoteGetUrlArgs then Except.ok "git@example:r.git"
              else Except.ok ""⟩).1).str, true⟩ ∧
     (pull ⟨fun args =>
        if args = upstreamArgs then Except.error "no upstream"
        else if args = remoteGetUrlArgs then Except.ok "git@example:r.git"
        else Except.ok ""⟩).2 = (detectRepoState ⟨fun args =>
          if args = upstreamArgs then Except.error "no upstream"
          else if args = remoteGetUrlArgs then Except.ok "git@example:r.git"
          else Except.ok ""⟩).2 ∧
     (∀ args ∈ (pull ⟨fun args =>
        if args = upstreamArgs then Except.error "no upstream"
        else if args = remoteGetUrlArgs then Except.ok "git@example:r.git"
        else Except.ok ""⟩).2, args.head? ≠ some "pull")) :=
  ⟨by decide,
    pull_not_ready ⟨fun args =>
      if args = upstreamArgs then Except.error "no upstream"
      else if args = remoteGetUrlArgs then Except.ok "git@example:r.git"
      else Except.ok ""⟩ (by decide)⟩

/-- C7: when the upstream-based pull attempt fails, `pull` retries exactly
once against the explicit `origin <current branch>` pair (each pull
invocation appears exactly once in the trace); if that retry fails with a
merge-conflict marker the result is a structured `hasConflicts` value
rather than a thrown error, and any other failure propagates. -/
theorem pull_upstream_retry (env : GitEnv) (e0 bRaw : String)
    (hready : (detectRepoState env).1 = RepoState.ready)
    (hpull : env.run pullArgs = Except.error e0)
    (hbranch : env.run currentBranchArgs = Except.ok bRaw) :
    ((pull env).2.count pullArgs = 1 ∧
     (pull env).2.count (pullOriginArgs (strTrim bRaw)) = 1) ∧
    (∀ e1 : String, env.run (pullOriginArgs (strTrim bRaw)) = Except.error e1 →
      (conflictMarker e1 = true →
        (pull env).1 = Except.ok ⟨false, true, e1, false⟩) ∧
      (conflictMarker e1 = false → (pull env).1 = Except.error e1)) := by
  have key : pull env =
      (match env.run (pullOriginArgs (strTrim bRaw)) with
       | .ok out => Except.ok (⟨true, false, out, false⟩ : PullResult)
       | .error e1 =>
         if conflictMarker e1 then Except.ok (⟨false, true, e1, false⟩ : PullResult)
         else Except.error e1,
       (detectRepoState env).2 ++ [pullArgs] ++ [currentBranchArgs] ++
         [pullOriginArgs (strTrim bRaw)]) := by
    unfold pull getCurrentBranch
    rcases hd : detectRepoState env with ⟨state, t0⟩
    rw [hd] at hready
    have hstate : state = RepoState.ready := hready
    subst hstate
    dsimp only
    rw [if_neg (by simp), hpull, hbranch]
    dsimp only
    rcases env.run (pullOriginArgs (strTrim bRaw)) with e1 | out <;> rfl
  have hno0 : (detectRepoState env).2.count pullArgs = 0 := by
    rw [List.count_eq_zero]
    intro hmem
    exact detect_trace_no_pull env pullArgs hmem rfl
  have hno1 : (detectRepoState env).2.count (pullOriginArgs (strTrim bRaw)) = 0 := by
    rw [List.count_eq_zero]
    intro hmem
    exact detect_trace_no_pull env (pullOriginArgs (strTrim bRaw)) hmem rfl
  refine ⟨⟨?_, ?_⟩, ?_⟩
  · rw [key]
    dsimp only
    rw [List.count_append, List.count_append, List.count_append, hno0]
    have h1 : List.count pullArgs [pullArgs] = 1 := by decide
    have h2 : List.count pullArgs [currentBranchArgs] = 0 := by decide
    have h3 : List.count pullArgs [pullOriginArgs (strTrim bRaw)] = 0 := by
      rw [List.count_eq_zero]
      simp [pullArgs, pullOriginArgs]
    omega
  · rw [key]
    dsimp only
    rw [List.count_append, List.count_append, List.count_append, hno1]
    have h1 : List.count (pullOriginArgs (strTrim bRaw)) [pullArgs] = 0 := by
      rw [List.count_eq_zero]
      simp [pullArgs, pullOriginArgs]
    have h2 : List.count (pullOriginArgs (strTrim bRaw)) [currentBranchArgs] = 0 := by
      rw [List.count_eq_zero]
      simp [pullOriginArgs, currentBranchArgs]
    have h3 : List.count (pullOriginArgs (strTrim bRaw)) [pullOriginArgs (strTrim bRaw)] = 1 := by
      simp
    omega
  · intro e1 hrun
    constructor <;> intro hmark <;> rw [key] <;> dsimp only <;> rw [hrun] <;>
      simp [hmark]

/-- Witness for C7: upstream pull fails, the explicit retry hits a merge
conflict; the result is the structured conflict value. -/
theorem pull_upstream_retry_witness :
    (detectRepoState ⟨fun args =>
        if args = pullArgs then Except.error "fail"
        else if args = pullOriginArgs "main" then
          Except.error "CONFLICT (content): Merge conflict in a.md"
        else if args = currentBranchArgs then Except.ok "main\n"
        else if args = remoteGetUrlArgs then Except.ok "git@example:r.git"
        else Except.ok ""⟩).1 = RepoState.ready ∧
    ((pull ⟨fun args =>
        if args = pullArgs then Except.error "fail"
        else if args = pullOriginArgs "main" then
          Except.error "CONFLICT (content): Merge conflict in a.md"
        else if args = currentBranchArgs then Except.ok "main\n"
        else if args = remoteGetUrlArgs then Except.ok "git@example:r.git"
        else Except.ok ""⟩).2.count pullArgs = 1 ∧
     (pull ⟨fun args =>
        if args = pullArgs then Except.error "fail"
        else if args = pullOriginArgs "main" then
          Except.error "CONFLICT (content): Merge conflict in a.md"
        else if args = currentBranchArgs then Except.ok "main\n"
        else if args = remoteGetUrlArgs then Except.ok "git@example:r.git"
        else Except.ok ""⟩).2.count (pullOriginArgs (strTrim "main\n")) = 1) :=
  ⟨by decide,
    (pull_upstream_retry ⟨fun args =>
        if args = pullArgs then Except.error "fail"
        else if args = pullOriginArgs "main" then
          Except.error "CONFLICT (content): Merge conflict in a.md"
        else if args = currentBranchArgs then Except.ok "main\n"
        else if args = remoteGetUrlArgs then Except.ok "git@example:r.git"
        else Except.ok ""⟩ "fail" "main\n" (by decide) rfl rfl).1⟩

end AutoGit
